import Mathlib

/-!
Verification of the PhilsElections2025 repository.

The repository has two Python source files:
  * `process_election_data.py` — name standardization (`standardize_name`),
    markdown-table loading (`read_actual_results`, `read_opinion_polls`) and
    the raw-to-canonical name mapping built in `main`.
  * `app.py` — the accuracy scorer (`actual_top12`, `get_top12_from_poll`,
    `generate_comparison_results`).

Strings are modelled as lists of characters (`Str`); the Python string
operations used by the source (`str.title`, `str.lower`, `str.split`,
`str.strip`, `in`, `re.sub` with word boundaries and whitespace classes)
are embedded as structurally recursive functions below.  All inputs in the
datasets are ASCII, so the ASCII case functions of `Char` coincide with
Python's Unicode ones on the data of interest.
-/

abbrev Str := List Char

/-- Python `str.lower()`. -/
def pyLower (s : Str) : Str := s.map Char.toLower

/-- Helper for `pyTitle`: the flag records whether the previous character
was cased (alphabetic), which is what Python's `str.title()` tests. -/
def pyTitleAux : Bool → Str → Str
  | _, [] => []
  | prevCased, c :: rest =>
    if c.isAlpha then
      (if prevCased then c.toLower else c.toUpper) :: pyTitleAux true rest
    else
      c :: pyTitleAux false rest

/-- Python `str.title()`: the first letter of every maximal letter run is
uppercased, the rest lowercased. -/
def pyTitle (s : Str) : Str := pyTitleAux false s

/-- Python `str.split(sep)` for a one-character separator: keeps empty
segments and always returns at least one segment. -/
def splitOnChar (sep : Char) : Str → List Str
  | [] => [[]]
  | c :: rest =>
    let r := splitOnChar sep rest
    if c = sep then [] :: r
    else
      match r with
      | [] => [[c]]
      | h :: t => (c :: h) :: t

/-- Python `str.strip()` (both ends; the data only contains the four ASCII
whitespace characters recognised by `Char.isWhitespace`). -/
def pyStrip (s : Str) : Str :=
  ((s.dropWhile Char.isWhitespace).reverse.dropWhile Char.isWhitespace).reverse

/-- Helper for `collapseWs`: the flag records whether we are inside a
whitespace run that has already emitted its single replacement space. -/
def collapseWsAux : Bool → Str → Str
  | _, [] => []
  | inWs, c :: rest =>
    if c.isWhitespace then
      if inWs then collapseWsAux true rest
      else ' ' :: collapseWsAux true rest
    else c :: collapseWsAux false rest

/-- Python `re.sub(r'\s+', ' ', s)`: every maximal whitespace run becomes a
single space. -/
def collapseWs (s : Str) : Str := collapseWsAux false s

/-- Python `' '.join(parts)`. -/
def joinSpace : List Str → Str
  | [] => []
  | [s] => s
  | s :: rest => s ++ ' ' :: joinSpace rest

/-- Python substring test `needle in hay` (for nonempty needles). -/
def containsSub (needle : Str) : Str → Bool
  | [] => needle.isPrefixOf []
  | c :: rest => needle.isPrefixOf (c :: rest) || containsSub needle rest

/-- A regex word character (`\w`): ASCII letter, digit or underscore. -/
def wordChar (c : Char) : Bool := c.isAlphanum || c = '_'

/-- A `\b` boundary holds before a position whose preceding character is
absent or not a word character. -/
def boundaryBefore : Option Char → Bool
  | none => true
  | some c => !wordChar c

/-- A `\b` boundary holds after the match when the remaining text is empty
or starts with a non-word character. -/
def boundaryAfter : Str → Bool
  | [] => true
  | c :: _ => !wordChar c

/-- Helper for `subWord`, fuelled to make the left-to-right non-overlapping
scan of `re.sub` structurally recursive; the fuel is at least the length of
the text plus one, so it is never exhausted. -/
def subWordAux (w : Str) : Nat → Option Char → Str → Str
  | 0, _, s => s
  | _ + 1, _, [] => []
  | fuel + 1, prev, c :: rest =>
    if boundaryBefore prev && w.isPrefixOf (c :: rest)
        && boundaryAfter (List.drop w.length (c :: rest)) then
      subWordAux w fuel w.getLast? (List.drop w.length (c :: rest))
    else
      c :: subWordAux w fuel (some c) rest

/-- Python `re.sub(r'\bW\b', '', s)` for a literal word `W`: removes every
non-overlapping whole-word occurrence, scanning left to right. -/
def subWord (w : Str) (s : Str) : Str := subWordAux w (s.length + 1) none s

/-! The rule tables of `standardize_name` (`process_election_data.py`,
lines 17-28 and 49-60), in Python dict insertion order. -/

/-- The exact override table `specific_cases`. -/
def specific_cases : List (Str × Str) := [
  ("Go, Bong Go".data, "Bong Go".data),
  ("Bong Revilla, Ramon, Jr.".data, "Ramon Bong Revilla Jr.".data),
  ("Bong Revilla".data, "Ramon Bong Revilla Jr.".data),
  ("Pacquiao, Manny Pacman".data, "Manny Pacquiao".data),
  ("Tolentino, Francis Tol".data, "Francis Tolentino".data),
  ("Salvador, Phillip Ipe".data, "Phillip Salvador".data),
  ("Revillame, Willie Wil".data, "Willie Revillame".data),
  ("Tulfo, Ben Bitag".data, "Ben Tulfo".data),
  ("Bosita, Colonel".data, "Bonifacio Bosita".data),
  ("Rodriguez, Atty. Vic".data, "Vic Rodriguez".data)]

/-- The substring-correction table `name_mapping` (the local dict inside
`standardize_name`, distinct from the mapping file written by `main`). -/
def name_mapping : List (Str × Str) := [
  ("Bato Dela Rosa".data, "Bato dela Rosa".data),
  ("Panfilo Lacson".data, "Ping Lacson".data),
  ("Francis Tolentino".data, "Francis Tolentino".data),
  ("Phillip Ipe Salvador".data, "Phillip Salvador".data),
  ("Willie Revillame".data, "Willie Revillame".data),
  ("Ben Tulfo".data, "Ben Tulfo".data),
  ("Colonel Bosita".data, "Bonifacio Bosita".data),
  ("Atty. Vic Rodriguez".data, "Vic Rodriguez".data),
  ("Rodante Marcoleta".data, "Rodante Marcoleta".data),
  ("Kiko Pangilinan".data, "Francis Kiko Pangilinan".data)]

/-- Python `'Last, First'` rearrangement (`process_election_data.py`,
lines 36-40): split on commas, move the first segment to the end, strip
each segment and join with single spaces.  The source guards with
`len(parts) >= 2`, which holds whenever a comma is present. -/
def commaRearrange (s : Str) : Str :=
  match splitOnChar ',' s with
  | [] => s
  | p0 :: rest => joinSpace ((rest ++ [p0]).map pyStrip)

/-- The tail of `standardize_name` after the override-table check:
comma rearrangement, nickname stripping (`Pacman`, `Tol`, `Wil`, `Bitag`,
in source order), the substring-correction pass (later rules see the
result of earlier ones, as in the Python loop), and whitespace cleanup. -/
def standardizeRest (name : Str) : Str :=
  let n1 := if ',' ∈ name then commaRearrange name else name
  let n2 := subWord "Bitag".data (subWord "Wil".data
              (subWord "Tol".data (subWord "Pacman".data n1)))
  let n3 := name_mapping.foldl
      (fun acc kv => if containsSub (pyLower kv.1) (pyLower acc) then kv.2 else acc) n2
  pyStrip (collapseWs n3)

/-- The function `standardize_name` (`process_election_data.py`, lines 8-69):
title-case
the input, return the override value on a case-insensitive exact match,
otherwise run the general rules. -/
def standardize_name (raw : Str) : Str :=
  match specific_cases.find? (fun kv => pyLower kv.1 == pyLower (pyTitle raw)) with
  | some kv => kv.2
  | none => standardizeRest (pyTitle raw)

/-!
The accuracy scorer of `app.py`.

A poll table is the `opinion_polls` DataFrame as the scorer reads it: the
`Standardized Name` column (`names`, in row order) and the numeric survey
columns (`cols`, header plus one optional score per row; a missing score is
the NaN produced by `pd.to_numeric(errors='coerce')`).  The official
results are the `actual_results` DataFrame rows as (standardized name,
vote count) pairs in file order — `app.py` performs no sort on them.
-/

/-- pandas `poll_df.dropna(subset=[poll_column])`: keep the rows with a present
score, in order. -/
def dropna (rows : List (Str × Option Rat)) : List (Str × Rat) :=
  rows.filterMap (fun r => r.2.map (fun q => (r.1, q)))

/-- Insert `x` before the first element `y` with `le x y`; the core of a
stable insertion sort. -/
def insertSorted (le : α → α → Bool) (x : α) : List α → List α
  | [] => [x]
  | y :: ys => if le x y then x :: y :: ys else y :: insertSorted le x ys

/-- Stable insertion sort: equal elements keep their input order. -/
def sortBy (le : α → α → Bool) : List α → List α
  | [] => []
  | x :: xs => insertSorted le x (sortBy le xs)

/-- Ascending comparison on scores. -/
def leAscQ (a b : Str × Rat) : Bool := decide (a.2 ≤ b.2)

/-- Descending comparison on scores. -/
def leDescQ (a b : Str × Rat) : Bool := decide (b.2 ≤ a.2)

/-- Descending comparison on vote counts. -/
def leDescV (a b : Str × Int) : Bool := decide (b.2 ≤ a.2)

/-- pandas `sort_values(by=poll_column, ascending=False)` on one column:
pandas argsorts ascending and reverses the indexer
(`pandas.core.sorting.nargsort`), so tied values come out in reverse input
order, not input order.  The default numpy quicksort kind degenerates to a
stable insertion sort below 16 elements, which covers every concrete
instance considered here; for longer inputs the code leaves the order of
ties unspecified, while the multiset of rows is as modelled. -/
def sort_values_desc (rows : List (Str × Rat)) : List (Str × Rat) :=
  (sortBy leAscQ rows).reverse

/-- The function `get_top12_from_poll` (`app.py`, lines 28-36): drop missing scores,
sort descending, take the first 12 standardized names. -/
def get_top12_from_poll (rows : List (Str × Option Rat)) : List Str :=
  ((sort_values_desc (dropna rows)).take 12).map (fun r => r.1)

/-- The list `actual_top12` (`app.py`, line 25): the first 12 rows of the official
results in their stored order — no sort is performed. -/
def actual_top12 (official : List (Str × Int)) : List Str :=
  (official.take 12).map (fun r => r.1)

/-- The column names excluded from scoring (`app.py`, line 40). -/
def reserved_columns : List Str :=
  ["Candidate".data, "Party".data, "Standardized Name".data]

/-- Python's true division on the exact values, with `ZeroDivisionError`
modelled as `none`. -/
def pyDiv (a b : Rat) : Option Rat := if b = 0 then none else some (a / b)

/-- The poll table as the scorer reads it. -/
structure PollTable where
  names : List Str
  cols : List (Str × List (Option Rat))

/-- One row of the comparison DataFrame (`app.py`, lines 55-60). -/
structure Scorecard where
  column : Str
  correct : Nat
  accuracy : Option Rat
  predicted : List Str

/-- The loop body of `generate_comparison_results` (`app.py`, lines 44-60)
for one poll column: predicted top 12, `correct_count` (line 49) and
`accuracy = (correct_count / 12) * 100` (line 52). -/
def scorecardFor (atop : List Str) (names : List Str)
    (c : Str × List (Option Rat)) : Scorecard :=
  let predicted := get_top12_from_poll (names.zip c.2)
  let correct := predicted.countP (fun x => decide (x ∈ atop))
  { column := c.1, correct := correct,
    accuracy := (pyDiv (correct : Rat) 12).map (fun q => q * 100),
    predicted := predicted }

/-- The function `generate_comparison_results` (`app.py`, lines 39-63). -/
def generate_comparison_results (official : List (Str × Int))
    (t : PollTable) : List Scorecard :=
  (t.cols.filter (fun c => !(reserved_columns.contains c.1))).map
    (scorecardFor (actual_top12 official) t.names)

/-- Generalization of `get_top12_from_poll` with the hard-coded 12 replaced by `n`. -/
def get_topn_from_poll (n : Nat) (rows : List (Str × Option Rat)) : List Str :=
  ((sort_values_desc (dropna rows)).take n).map (fun r => r.1)

/-- Generalization of `actual_top12` with the hard-coded 12 replaced by `n`. -/
def actual_topn (n : Nat) (official : List (Str × Int)) : List Str :=
  (official.take n).map (fun r => r.1)

/-- Generalization of `scorecardFor` with the hard-coded 12 replaced by `n`:
the Python
division `correct_count / n` raises `ZeroDivisionError` when `n = 0`
(the `none` of `pyDiv`). -/
def scorecardForN (n : Nat) (atop : List Str) (names : List Str)
    (c : Str × List (Option Rat)) : Scorecard :=
  let predicted := get_topn_from_poll n (names.zip c.2)
  let correct := predicted.countP (fun x => decide (x ∈ atop))
  { column := c.1, correct := correct,
    accuracy := (pyDiv (correct : Rat) (n : Rat)).map (fun q => q * 100),
    predicted := predicted }

/-- The spec's scorer contract `score(official, surveys, top_n)` obtained
from the source by making the literal 12 of `app.py` a parameter; the
source instantiates `n = 12` only. -/
def score_topn (n : Nat) (official : List (Str × Int))
    (t : PollTable) : List Scorecard :=
  (t.cols.filter (fun c => !(reserved_columns.contains c.1))).map
    (scorecardForN n (actual_topn n official) t.names)

/-- Follows the spec's words (§4.3 step 1): the official results ordered by
vote count descending with a stable sort (ties keep input order), truncated
to the first `n` canonical identities. -/
def spec_actualTopN (n : Nat) (official : List (Str × Int)) : List Str :=
  ((sortBy leDescV official).take n).map (fun r => r.1)

/-- Follows the spec's words (§4.3 step 2): the records with a non-absent
score, stably sorted by score descending (ties keep input order), first `n`
canonical identities. -/
def spec_predictedTopN (n : Nat) (rows : List (Str × Option Rat)) : List Str :=
  ((sortBy leDescQ (dropna rows)).take n).map (fun r => r.1)

/-!
The survey-table numeric conversion of `read_opinion_polls`
(`process_election_data.py`, lines 129-134) and the name-mapping artifact
of `main` (lines 151-156).
-/

/-- A processed DataFrame cell: an untouched raw string, a parsed number,
or the NaN that `pd.to_numeric(errors='coerce')` produces. -/
inductive Cell
  | raw (s : Str)
  | num (q : Rat)
  | nodata
deriving DecidableEq

/-- pandas `.str.replace(c, '')` for a single literal character. -/
def removeChar (c : Char) (s : Str) : Str := s.filter (fun d => d ≠ c)

/-- Helper for `removeOcc`, fuelled like `subWordAux`. -/
def removeOccAux (pat : Str) : Nat → Str → Str
  | 0, s => s
  | _ + 1, [] => []
  | fuel + 1, c :: rest =>
    if pat.isPrefixOf (c :: rest) then
      removeOccAux pat fuel (List.drop pat.length (c :: rest))
    else
      c :: removeOccAux pat fuel rest

/-- pandas `.str.replace(pat, '')` for a literal multi-character pattern:
removes non-overlapping occurrences left to right. -/
def removeOcc (pat : Str) (s : Str) : Str := removeOccAux pat (s.length + 1) s

/-- The cell cleanup of line 132: strip `%`, `**`, `*`, then whitespace. -/
def cleanCell (s : Str) : Str :=
  pyStrip (removeChar '*' (removeOcc "**".data (removeChar '%' s)))

/-- The number of digits consumed and their value, for `parseFloat`. -/
def natOfDigits (l : Str) : Nat :=
  l.foldl (fun a c => a * 10 + (c.toNat - 48)) 0

/-- Helper for `parseFloat`: parse `digits [. digits]` with at least one
digit, applying the sign to the scaled mantissa.  Rationals are built with
`mkRat` so the definition evaluates inside the kernel. -/
def parseFloatCore (sgn : Int) (r : Str) : Option Rat :=
  let ip := r.takeWhile Char.isDigit
  let r2 := r.dropWhile Char.isDigit
  match r2 with
  | [] => if ip.isEmpty then none else some (mkRat (sgn * (natOfDigits ip : Int)) 1)
  | '.' :: r3 =>
    let fp := r3.takeWhile Char.isDigit
    let r4 := r3.dropWhile Char.isDigit
    if r4.isEmpty && !(ip.isEmpty && fp.isEmpty) then
      some (mkRat (sgn * ((natOfDigits ip * 10 ^ fp.length + natOfDigits fp : Nat) : Int))
        (10 ^ fp.length))
    else none
  | _ => none

/-- pandas `pd.to_numeric(cell, errors='coerce')` on an already-stripped string:
an optionally signed decimal literal, or NaN (`none`) when the string is
empty or fails to parse.  The survey cells are plain percentages, so the
exponent and infinity forms accepted by pandas never arise and are not
modelled. -/
def parseFloat (s : Str) : Option Rat :=
  match s with
  | '-' :: r => parseFloatCore (-1) r
  | '+' :: r => parseFloatCore 1 r
  | r => parseFloatCore 1 r

/-- One survey cell through line 132 and line 133. -/
def processCell (s : Str) : Option Rat := parseFloat (cleanCell s)

/-- The pollster substrings of the column filter on line 130. -/
def pollster_tokens : List Str :=
  ["OCTA".data, "SWS".data, "Pulse Asia".data, "WR Numero".data,
   "Arkipelago Analytics".data, "The Center".data, "DZRH".data,
   "Publicus Asia".data]

/-- Line 130: a column is converted only when its header contains one of
the pollster substrings. -/
def isSurveyCol (c : Str) : Bool :=
  pollster_tokens.any (fun t => containsSub t c)

/-- Lines 129-134 for one column: convert the cells of a matching survey
column, leave any other column as raw strings. -/
def processColumn (c : Str) (cells : List Str) : List Cell :=
  if isSurveyCol c then
    cells.map (fun s =>
      match processCell s with
      | some q => Cell.num q
      | none => Cell.nodata)
  else cells.map Cell.raw

/-- The numeric-conversion loop of `read_opinion_polls` over the whole
table (`for col in df.columns[2:]`): the first two columns (name, party)
are skipped, every later column goes through `processColumn`. -/
def read_opinion_polls_convert (cols : List (Str × List Str)) :
    List (Str × List Cell) :=
  (cols.take 2).map (fun p => (p.1, p.2.map Cell.raw)) ++
    (cols.drop 2).map (fun p => (p.1, processColumn p.1 p.2))

/-- Follows the spec's words (§4.2): EVERY column after the first two is a
survey instrument whose cells are stripped of markup and parsed, with
unparsable or empty cells becoming the explicit no-data value. -/
def spec_convert_all (cols : List (Str × List Str)) :
    List (Str × List Cell) :=
  (cols.take 2).map (fun p => (p.1, p.2.map Cell.raw)) ++
    (cols.drop 2).map (fun p => (p.1, p.2.map (fun s =>
      match processCell s with
      | some q => Cell.num q
      | none => Cell.nodata)))

/-- Helper for `dropDuplicates`: `seen` holds the values already kept. -/
def dropDupAux [DecidableEq α] (seen : List α) : List α → List α
  | [] => []
  | x :: xs =>
    if x ∈ seen then dropDupAux seen xs
    else x :: dropDupAux (x :: seen) xs

/-- pandas `DataFrame.drop_duplicates()`: keep the first occurrence of
each row, in order. -/
def dropDuplicates [DecidableEq α] (l : List α) : List α := dropDupAux [] l

/-- The name-mapping DataFrame of `main` (`process_election_data.py`,
lines 151-154): original names of both datasets paired with their
standardized forms (the columns written by `apply(standardize_name)`),
with duplicate rows removed. -/
def make_name_mapping (resNames pollNames : List Str) : List (Str × Str) :=
  dropDuplicates ((resNames ++ pollNames).map (fun n => (n, standardize_name n)))

/-- Looking an original name up in the mapping: the canonical name of the
first row whose original-name field matches. -/
def lookupName (m : List (Str × Str)) (n : Str) : Option Str :=
  (m.find? (fun kv => kv.1 == n)).map (fun kv => kv.2)

/-!
Concrete data used by counterexamples and witnesses.
-/

/-- Official results NOT ordered by votes descending (the lower count
first). -/
def official_unsorted : List (Str × Int) :=
  [("Abe".data, 100), ("Bea".data, 200)]

/-- Official results ordered by votes descending. -/
def official_sorted : List (Str × Int) :=
  [("Bea".data, 200), ("Abe".data, 100)]

/-- Two survey rows with equal scores. -/
def rows_tied : List (Str × Option Rat) :=
  [("Abe".data, some 5), ("Bea".data, some 5)]

/-- Two survey rows with distinct scores. -/
def rows_distinct : List (Str × Option Rat) :=
  [("Abe".data, some 5), ("Bea".data, some 7)]

/-- A poll column in which the same canonical identity occurs twice. -/
def col_dup : Str × List (Option Rat) :=
  ("Poll".data, [some 2, some 1])

/-- Row names with a duplicated canonical identity. -/
def names_dup : List Str := ["Abe".data, "Abe".data]

/-- Row names without duplicates. -/
def names_plain : List Str := ["Abe".data, "Bea".data]

/-- A one-row official result. -/
def official_one : List (Str × Int) := [("Abe".data, 900)]

/-- A small poll table with one scored column. -/
def table_one : PollTable :=
  { names := ["Abe".data, "Bea".data],
    cols := [("Poll".data, [some 5, some 7])] }

/-- A survey table whose third column header names no known pollster. -/
def cols_other : List (Str × List Str) :=
  [("Candidate".data, ["X".data]), ("Party".data, ["Y".data]),
   ("Some Tally".data, ["12%".data])]

/-- The canonical values produced by the two rule tables of
`standardize_name`. -/
def canonical_values : List Str :=
  specific_cases.map (fun kv => kv.2) ++ name_mapping.map (fun kv => kv.2)

/-!
Helper lemmas.
-/

theorem find_first_of_lower_distinct
    (l : List (Str × Str)) (k v t : Str)
    (hd : l.Pairwise (fun p q => pyLower p.1 ≠ pyLower q.1))
    (hm : (k, v) ∈ l) (hk : pyLower k = t) :
    l.find? (fun kv => pyLower kv.1 == t) = some (k, v) := by
  induction l with
  | nil => cases hm
  | cons p rest ih =>
    rcases List.mem_cons.mp hm with h | h
    · subst h
      exact List.find?_cons_of_pos rest (by simp [hk])
    · have hpair := List.pairwise_cons.mp hd
      have hne : pyLower p.1 ≠ t := by
        intro hc
        exact hpair.1 (k, v) h (by rw [hc, hk])
      rw [List.find?_cons_of_neg rest (by simp [hne])]
      exact ih hpair.2 h

theorem insertSorted_perm (le : α → α → Bool) (x : α) :
    ∀ l : List α, (insertSorted le x l).Perm (x :: l) := by
  intro l
  induction l with
  | nil => exact List.Perm.refl _
  | cons y ys ih =>
    unfold insertSorted
    by_cases h : le x y = true
    · rw [if_pos h]
    · rw [if_neg h]
      exact (ih.cons y).trans (List.Perm.swap x y ys)

theorem sortBy_perm (le : α → α → Bool) :
    ∀ l : List α, (sortBy le l).Perm l := by
  intro l
  induction l with
  | nil => exact List.Perm.refl _
  | cons x xs ih =>
    unfold sortBy
    exact (insertSorted_perm le x (sortBy le xs)).trans (ih.cons x)

theorem insertSorted_pairwise (le : α → α → Bool)
    (htot : ∀ a b, le a b = false → le b a = true)
    (htrans : ∀ a b c, le a b = true → le b c = true → le a c = true)
    (x : α) :
    ∀ l : List α, l.Pairwise (fun a b => le a b = true) →
      (insertSorted le x l).Pairwise (fun a b => le a b = true) := by
  intro l
  induction l with
  | nil =>
    intro _
    simp [insertSorted]
  | cons y ys ih =>
    intro h
    obtain ⟨hy, hys⟩ := List.pairwise_cons.mp h
    unfold insertSorted
    by_cases hxy : le x y = true
    · rw [if_pos hxy, List.pairwise_cons]
      refine ⟨fun z hz => ?_, List.pairwise_cons.mpr ⟨hy, hys⟩⟩
      rcases List.mem_cons.mp hz with rfl | hz'
      · exact hxy
      · exact htrans x y z hxy (hy z hz')
    · rw [if_neg hxy, List.pairwise_cons]
      refine ⟨fun z hz => ?_, ih hys⟩
      have hz2 := (insertSorted_perm le x ys).mem_iff.mp hz
      rcases List.mem_cons.mp hz2 with rfl | hz'
      · exact htot _ y (Bool.eq_false_iff.mpr hxy)
      · exact hy z hz'

theorem sortBy_pairwise (le : α → α → Bool)
    (htot : ∀ a b, le a b = false → le b a = true)
    (htrans : ∀ a b c, le a b = true → le b c = true → le a c = true) :
    ∀ l : List α, (sortBy le l).Pairwise (fun a b => le a b = true) := by
  intro l
  induction l with
  | nil => simp [sortBy]
  | cons x xs ih =>
    unfold sortBy
    exact insertSorted_pairwise le htot htrans x (sortBy le xs) ih

theorem sortBy_eq_self (le : α → α → Bool) :
    ∀ l : List α, l.Pairwise (fun a b => le a b = true) → sortBy le l = l := by
  intro l
  induction l with
  | nil => intro _; rfl
  | cons x xs ih =>
    intro h
    obtain ⟨hx, hxs⟩ := List.pairwise_cons.mp h
    unfold sortBy
    rw [ih hxs]
    cases xs with
    | nil => rfl
    | cons y ys =>
      unfold insertSorted
      rw [if_pos (hx y (by simp))]

theorem sortBy_length (le : α → α → Bool) (l : List α) :
    (sortBy le l).length = l.length :=
  (sortBy_perm le l).length_eq

/-- On rows with pairwise-distinct scores, the reversal of the stable
ascending sort agrees with the stable descending sort: the descending order
is unique when there are no ties. -/
theorem reverse_sortAsc_eq_sortDesc (l : List (Str × Rat))
    (hd : l.Pairwise (fun a b => a.2 ≠ b.2)) :
    (sortBy leAscQ l).reverse = sortBy leDescQ l := by
  have hsym : ∀ {a b : Str × Rat}, a.2 ≠ b.2 → b.2 ≠ a.2 := fun h => h.symm
  have htotA : ∀ a b : Str × Rat, leAscQ a b = false → leAscQ b a = true := by
    intro a b h
    simp only [leAscQ, decide_eq_false_iff_not] at h
    simpa [leAscQ] using le_of_not_le h
  have htransA : ∀ a b c : Str × Rat,
      leAscQ a b = true → leAscQ b c = true → leAscQ a c = true := by
    intro a b c h1 h2
    simp only [leAscQ, decide_eq_true_eq] at h1 h2 ⊢
    exact le_trans h1 h2
  have htotD : ∀ a b : Str × Rat, leDescQ a b = false → leDescQ b a = true := by
    intro a b h
    simp only [leDescQ, decide_eq_false_iff_not] at h
    simpa [leDescQ] using le_of_not_le h
  have htransD : ∀ a b c : Str × Rat,
      leDescQ a b = true → leDescQ b c = true → leDescQ a c = true := by
    intro a b c h1 h2
    simp only [leDescQ, decide_eq_true_eq] at h1 h2 ⊢
    exact le_trans h2 h1
  have hpermA : (sortBy leAscQ l).Perm l := sortBy_perm _ l
  have hpermD : (sortBy leDescQ l).Perm l := sortBy_perm _ l
  have hdA : (sortBy leAscQ l).Pairwise (fun a b => a.2 ≠ b.2) :=
    (hpermA.pairwise_iff fun h => hsym h).mpr hd
  have hdD : (sortBy leDescQ l).Pairwise (fun a b => a.2 ≠ b.2) :=
    (hpermD.pairwise_iff fun h => hsym h).mpr hd
  have hstrictA : (sortBy leAscQ l).Pairwise (fun a b => a.2 < b.2) := by
    refine ((sortBy_pairwise leAscQ htotA htransA l).and hdA).imp ?_
    intro a b h
    exact lt_of_le_of_ne (by simpa [leAscQ] using h.1) h.2
  have hstrictRev : ((sortBy leAscQ l).reverse).Pairwise (fun a b => b.2 < a.2) :=
    List.pairwise_reverse.mpr hstrictA
  have hstrictD : (sortBy leDescQ l).Pairwise (fun a b => b.2 < a.2) := by
    refine ((sortBy_pairwise leDescQ htotD htransD l).and hdD).imp ?_
    intro a b h
    exact lt_of_le_of_ne (by simpa [leDescQ] using h.1) (fun hc => h.2 hc.symm)
  exact @List.eq_of_perm_of_sorted (Str × Rat) (fun a b => b.2 < a.2)
    ⟨fun a b h1 h2 => absurd (h1.trans h2) (lt_irrefl _)⟩
    _ _ (((sortBy leAscQ l).reverse_perm.trans hpermA).trans hpermD.symm)
    hstrictRev hstrictD

/-!
The claims.
-/

/-- C1 (corrected): `actual_top12` performs no sort — it takes the first
12 official rows in their stored order.  It agrees with the spec's
vote-descending stable order exactly when the official results are already
ordered by vote count descending, which is how the published results file
is stored. -/
theorem C1_actual_topn_of_sorted (official : List (Str × Int))
    (h : official.Pairwise (fun a b => b.2 ≤ a.2)) :
    actual_top12 official = spec_actualTopN 12 official := by
  have h' : official.Pairwise (fun a b => leDescV a b = true) :=
    h.imp fun hab => by simpa [leDescV] using hab
  unfold actual_top12 spec_actualTopN
  rw [sortBy_eq_self leDescV official h']

/-- C1 counterexample: on official results not stored in vote-descending
order, the scorer's list is not the vote-ordered truncation the claim
promises. -/
theorem C1_counterexample :
    actual_top12 official_unsorted ≠ spec_actualTopN 12 official_unsorted := by
  decide

/-- C1 witness. -/
theorem C1_witness :
    official_sorted.Pairwise (fun a b : Str × Int => b.2 ≤ a.2) ∧
      actual_top12 official_sorted = spec_actualTopN 12 official_sorted :=
  ⟨by decide, C1_actual_topn_of_sorted official_sorted (by decide)⟩

/-- C2 (corrected): the predicted top 12 collects the rows with a present
score and sorts by score descending, but ties on equal scores come out in
reverse input order (pandas reverses an ascending argsort), not original
input order.  When the present scores are pairwise distinct the result is
exactly the spec's stable descending order. -/
theorem C2_predicted_of_distinct (rows : List (Str × Option Rat))
    (h : (dropna rows).Pairwise (fun a b => a.2 ≠ b.2)) :
    get_top12_from_poll rows = spec_predictedTopN 12 rows := by
  unfold get_top12_from_poll spec_predictedTopN sort_values_desc
  rw [reverse_sortAsc_eq_sortDesc (dropna rows) h]

/-- C2 counterexample: two rows with equal scores come out in reverse
input order, not the claimed stable (input) order. -/
theorem C2_counterexample :
    get_top12_from_poll rows_tied ≠ spec_predictedTopN 12 rows_tied ∧
      get_top12_from_poll rows_tied = ["Bea".data, "Abe".data] ∧
      spec_predictedTopN 12 rows_tied = ["Abe".data, "Bea".data] := by
  decide

/-- C2 witness. -/
theorem C2_witness :
    (dropna rows_distinct).Pairwise (fun a b => a.2 ≠ b.2) ∧
      get_top12_from_poll rows_distinct = spec_predictedTopN 12 rows_distinct :=
  ⟨by decide, C2_predicted_of_distinct rows_distinct (by decide)⟩

/-- C4 (confirmed): whenever the title-cased input matches an override key
case-insensitively, `standardize_name` returns the mapped value — the
override table takes precedence over every later rule; in particular
`standardize_name "go, bong go" = "Bong Go"`. -/
theorem C4_override_precedence :
    (∀ raw k v, (k, v) ∈ specific_cases →
        pyLower k = pyLower (pyTitle raw) → standardize_name raw = v)
  ∧ standardize_name "go, bong go".data = "Bong Go".data := by
  constructor
  · intro raw k v hm hk
    have hd : specific_cases.Pairwise (fun p q => pyLower p.1 ≠ pyLower q.1) := by
      decide
    have hf := find_first_of_lower_distinct specific_cases k v
      (pyLower (pyTitle raw)) hd hm hk
    unfold standardize_name
    rw [hf]
  · decide

/-- C4 witness. -/
theorem C4_witness :
    standardize_name "PACQUIAO, MANNY PACMAN".data = "Manny Pacquiao".data :=
  C4_override_precedence.1 ("PACQUIAO, MANNY PACMAN".data)
    ("Pacquiao, Manny Pacman".data) ("Manny Pacquiao".data)
    (by decide) (by decide)

/-- C5 counterexample: `standardize_name` is not idempotent on every
string.  One pass sends `"Revilla, Bong"` to `"Bong Revilla"`, and a
second pass hits the `"Bong Revilla"` override key, producing
`"Ramon Bong Revilla Jr."`. -/
theorem C5_counterexample :
    standardize_name (standardize_name "Revilla, Bong".data)
        ≠ standardize_name "Revilla, Bong".data
  ∧ standardize_name "Revilla, Bong".data = "Bong Revilla".data
  ∧ standardize_name (standardize_name "Revilla, Bong".data)
        = "Ramon Bong Revilla Jr.".data := by
  decide

/-- C5 (corrected): `standardize_name` is a pure function (determinism is
definitional), and it is idempotent on canonical inputs: every canonical
value of the override and correction tables is a fixed point.  Full
idempotence on arbitrary strings fails (see the counterexample). -/
theorem C5_idempotent_on_canonical :
    ∀ v, v ∈ canonical_values → standardize_name v = v := by
  decide

/-- C5 witness. -/
theorem C5_witness :
    "Bong Go".data ∈ canonical_values ∧
      standardize_name "Bong Go".data = "Bong Go".data :=
  ⟨by decide, C5_idempotent_on_canonical "Bong Go".data (by decide)⟩

/-- On a duplicate-free list, counting the members of `s` equals the
cardinality of the intersection of the two underlying finite sets. -/
theorem countP_mem_eq_card_inter (l s : List Str) (h : l.Nodup) :
    l.countP (fun x => decide (x ∈ s)) = (l.toFinset ∩ s.toFinset).card := by
  induction l with
  | nil => simp
  | cons x xs ih =>
    obtain ⟨hx, hxs⟩ := List.nodup_cons.mp h
    rw [List.countP_cons]
    by_cases hmem : x ∈ s
    · rw [List.toFinset_cons, Finset.insert_inter_of_mem (List.mem_toFinset.mpr hmem),
        Finset.card_insert_of_not_mem]
      · simp [ih hxs, hmem]
      · intro hc
        exact hx (List.mem_toFinset.mp (Finset.mem_inter.mp hc).1)
    · rw [List.toFinset_cons, Finset.insert_inter_of_not_mem (by simp [hmem])]
      simp [ih hxs, hmem]

/-- The accuracy field of a scorecard is the defined value
`correct / 12 * 100`; the division by the constant 12 cannot raise. -/
theorem scorecardFor_accuracy (atop names : List Str)
    (c : Str × List (Option Rat)) :
    (scorecardFor atop names c).accuracy
      = some (((scorecardFor atop names c).correct : Rat) / 12 * 100) := by
  simp only [scorecardFor, pyDiv]
  norm_num

/-- The predicted list has the length of the non-absent rows, capped at 12. -/
theorem scorecardFor_predicted_len (atop names : List Str)
    (c : Str × List (Option Rat)) :
    (scorecardFor atop names c).predicted.length
      = min 12 (dropna (names.zip c.2)).length := by
  simp only [scorecardFor, get_top12_from_poll, sort_values_desc]
  rw [List.length_map, List.length_take, List.length_reverse, sortBy_length]

/-- The count `correct_count` only counts members of the predicted list. -/
theorem scorecardFor_correct_le (atop names : List Str)
    (c : Str × List (Option Rat)) :
    (scorecardFor atop names c).correct
      ≤ (scorecardFor atop names c).predicted.length :=
  List.countP_le_length _

/-- Bounds for `n / 12 * 100` when `n ≤ 12`. -/
theorem accuracy_bounds_aux (n : Nat) (hn : n ≤ 12) :
    0 ≤ (n : Rat) / 12 * 100 ∧ (n : Rat) / 12 * 100 ≤ 100 := by
  constructor
  · positivity
  · have h12 : (n : Rat) ≤ 12 := by exact_mod_cast hn
    have hdiv : (n : Rat) / 12 ≤ 1 := (div_le_one (by norm_num)).mpr h12
    calc (n : Rat) / 12 * 100 ≤ 1 * 100 :=
          mul_le_mul_of_nonneg_right hdiv (by norm_num)
      _ = 100 := one_mul 100

/-- C3 (corrected): when the predicted list has no duplicate identities,
`correct_count` equals the cardinality of the intersection of the predicted
and actual top-12 sets — membership only, independent of rank.  With
duplicated identities the sum of line 49 counts them with multiplicity
(see the counterexample). -/
theorem C3_correct_eq_inter_card (atop names : List Str)
    (c : Str × List (Option Rat))
    (h : (scorecardFor atop names c).predicted.Nodup) :
    (scorecardFor atop names c).correct =
      ((scorecardFor atop names c).predicted.toFinset ∩ atop.toFinset).card :=
  countP_mem_eq_card_inter _ atop h

/-- C3 counterexample: a poll whose rows carry the same canonical identity
twice makes `correct_count` exceed the intersection cardinality — an
element can contribute more than once. -/
theorem C3_counterexample :
    (scorecardFor (actual_top12 official_one) names_dup col_dup).correct = 2
  ∧ ((scorecardFor (actual_top12 official_one) names_dup col_dup).predicted.toFinset
        ∩ (actual_top12 official_one).toFinset).card = 1
  ∧ (scorecardFor (actual_top12 official_one) names_dup col_dup).correct ≠
      ((scorecardFor (actual_top12 official_one) names_dup col_dup).predicted.toFinset
        ∩ (actual_top12 official_one).toFinset).card := by
  decide

/-- C3 witness. -/
theorem C3_witness :
    (scorecardFor (actual_top12 official_one) names_plain col_dup).predicted.Nodup
  ∧ (scorecardFor (actual_top12 official_one) names_plain col_dup).correct =
      ((scorecardFor (actual_top12 official_one) names_plain col_dup).predicted.toFinset
        ∩ (actual_top12 official_one).toFinset).card :=
  ⟨by decide, C3_correct_eq_inter_card _ _ _ (by decide)⟩

/-- C6 (confirmed): every scorecard's accuracy is the unrounded value
`correct / 12 * 100` — the denominator is the scorer's fixed top-N of 12
even when the survey covers fewer than 12 candidates, in which case the
predicted list is shorter than 12 (its length is the number of non-absent
scores, capped at 12) and `correct` counts only those present members. -/
theorem C6_accuracy_formula (official : List (Str × Int)) (names : List Str)
    (c : Str × List (Option Rat)) :
    (scorecardFor (actual_top12 official) names c).accuracy
        = some (((scorecardFor (actual_top12 official) names c).correct : Rat)
            / 12 * 100)
  ∧ (scorecardFor (actual_top12 official) names c).predicted.length
        = min 12 (dropna (names.zip c.2)).length
  ∧ (scorecardFor (actual_top12 official) names c).correct
        ≤ (scorecardFor (actual_top12 official) names c).predicted.length :=
  ⟨scorecardFor_accuracy _ _ _, scorecardFor_predicted_len _ _ _,
    scorecardFor_correct_le _ _ _⟩

/-- C7 (corrected): the scorer of `app.py` fixes the top-N at 12, so its
division never raises; but in the spec's parametric contract, obtained by
replacing the hard-coded 12 with `top_n`, a `top_n` of 0 yields empty
predicted lists together with a `0 / 0` division error (`none`), not the
0.0% the claim requires. -/
theorem C7_topn_zero (official : List (Str × Int)) (t : PollTable) :
    (∀ sc ∈ score_topn 0 official t, sc.predicted = [] ∧ sc.accuracy = none)
  ∧ (∀ sc ∈ generate_comparison_results official t, sc.accuracy ≠ none) := by
  constructor
  · intro sc hm
    rcases List.mem_map.mp hm with ⟨c, hc, rfl⟩
    constructor
    · simp [scorecardForN, get_topn_from_poll]
    · simp [scorecardForN, pyDiv]
  · intro sc hm
    rcases List.mem_map.mp hm with ⟨c, hc, rfl⟩
    rw [scorecardFor_accuracy]
    simp

/-- C7 counterexample: at `top_n = 0` the parametric scorer returns the
division-error value, not an accuracy of 0.0%. -/
theorem C7_counterexample :
    (score_topn 0 official_one table_one).map (fun sc => sc.accuracy) = [none]
  ∧ (score_topn 0 official_one table_one).map (fun sc => sc.accuracy)
        ≠ [some (0 : Rat)]
  ∧ (score_topn 0 official_one table_one).map (fun sc => sc.predicted) = [[]] := by
  decide

/-- C7 witness. -/
theorem C7_witness :
    ∃ sc, sc ∈ score_topn 0 official_one table_one ∧
      sc.predicted = [] ∧ sc.accuracy = none :=
  ⟨_, List.head_mem (List.length_pos.mp (by decide)),
    (C7_topn_zero official_one table_one).1 _
      (List.head_mem (List.length_pos.mp (by decide)))⟩

/-- C10 (confirmed): every scorecard the scorer produces satisfies
`correct ≤ length predicted ≤ 12`, and its accuracy is a defined
percentage in [0, 100], however many candidates the survey covers. -/
theorem C10_scorecard_bounds (official : List (Str × Int)) (t : PollTable) :
    ∀ sc ∈ generate_comparison_results official t,
      sc.correct ≤ sc.predicted.length ∧ sc.predicted.length ≤ 12 ∧
        ∃ q, sc.accuracy = some q ∧ 0 ≤ q ∧ q ≤ 100 := by
  intro sc hm
  rcases List.mem_map.mp hm with ⟨c, hc, rfl⟩
  have hlen : (scorecardFor (actual_top12 official) t.names c).predicted.length ≤ 12 := by
    rw [scorecardFor_predicted_len]
    exact min_le_left _ _
  have hcorrect : (scorecardFor (actual_top12 official) t.names c).correct ≤ 12 :=
    le_trans (scorecardFor_correct_le _ _ _) hlen
  refine ⟨scorecardFor_correct_le _ _ _, hlen, ?_⟩
  obtain ⟨h0, h100⟩ := accuracy_bounds_aux _ hcorrect
  exact ⟨_, scorecardFor_accuracy _ _ _, h0, h100⟩

/-- C10 witness. -/
theorem C10_witness :
    ∃ sc, sc ∈ generate_comparison_results official_one table_one ∧
      (sc.correct ≤ sc.predicted.length ∧ sc.predicted.length ≤ 12 ∧
        ∃ q, sc.accuracy = some q ∧ 0 ≤ q ∧ q ≤ 100) :=
  ⟨_, List.head_mem (List.length_pos.mp (by decide)),
    C10_scorecard_bounds official_one table_one _
      (List.head_mem (List.length_pos.mp (by decide)))⟩

/-- C8 (corrected): only the columns after the first two whose header
contains one of the pollster substrings are converted — their cells have
`%` and asterisk emphasis stripped and are parsed as floats, an empty or
unparsable cell becoming the explicit no-data value, which is never the
number zero and never an error; any other later column is left as raw
strings rather than parsed. -/
theorem C8_column_conversion :
    (∀ c cells, isSurveyCol c = true →
        processColumn c cells = cells.map (fun s =>
          match processCell s with
          | some q => Cell.num q
          | none => Cell.nodata))
  ∧ (∀ c cells, isSurveyCol c = false →
        processColumn c cells = cells.map Cell.raw)
  ∧ processCell "**31.9%**".data = some (mkRat 319 10)
  ∧ processCell "".data = none
  ∧ processCell "–".data = none
  ∧ (∀ s, processCell s = none →
        (match processCell s with
         | some q => Cell.num q
         | none => Cell.nodata) = Cell.nodata)
  ∧ (∀ q : Rat, Cell.nodata ≠ Cell.num q) := by
  refine ⟨?_, ?_, by decide, by decide, by decide, ?_, ?_⟩
  · intro c cells h
    unfold processColumn
    rw [h]
    simp
  · intro c cells h
    unfold processColumn
    rw [h]
    simp
  · intro s h
    rw [h]
  · intro q h
    cases h

/-- C8 counterexample: a third column whose header names no known pollster
is left as the raw string `"12%"`, not parsed as the spec's words
require. -/
theorem C8_counterexample :
    read_opinion_polls_convert cols_other ≠ spec_convert_all cols_other
  ∧ (read_opinion_polls_convert cols_other).map (fun p => p.2)
        = [[Cell.raw "X".data], [Cell.raw "Y".data], [Cell.raw "12%".data]]
  ∧ (spec_convert_all cols_other).map (fun p => p.2)
        = [[Cell.raw "X".data], [Cell.raw "Y".data], [Cell.num (mkRat 12 1)]] := by
  decide

/-- C8 witness. -/
theorem C8_witness :
    isSurveyCol "OCTA May 2025".data = true ∧
      processColumn "OCTA May 2025".data ["31.9%".data, "".data]
        = ["31.9%".data, "".data].map (fun s =>
            match processCell s with
            | some q => Cell.num q
            | none => Cell.nodata) :=
  ⟨by decide, C8_column_conversion.1 _ _ (by decide)⟩

/-- The helper `dropDupAux` produces a duplicate-free list disjoint from `seen`. -/
theorem dropDupAux_nodup [DecidableEq α] :
    ∀ (l seen : List α), (dropDupAux seen l).Nodup ∧
      ∀ a ∈ dropDupAux seen l, a ∉ seen := by
  intro l
  induction l with
  | nil =>
    intro seen
    simp [dropDupAux]
  | cons x xs ih =>
    intro seen
    unfold dropDupAux
    by_cases hx : x ∈ seen
    · rw [if_pos hx]
      exact ih seen
    · rw [if_neg hx]
      obtain ⟨hnd, hnotin⟩ := ih (x :: seen)
      refine ⟨List.nodup_cons.mpr ⟨?_, hnd⟩, ?_⟩
      · intro hc
        exact hnotin x hc (by simp)
      · intro a ha
        rcases List.mem_cons.mp ha with rfl | ha'
        · exact hx
        · intro hc
          exact hnotin a ha' (List.mem_cons_of_mem _ hc)

/-- Every element of `l` not hidden by `seen` survives `dropDupAux`. -/
theorem mem_dropDupAux [DecidableEq α] :
    ∀ (l seen : List α) (a : α), a ∈ l → a ∉ seen → a ∈ dropDupAux seen l := by
  intro l
  induction l with
  | nil =>
    intro seen a ha _
    cases ha
  | cons x xs ih =>
    intro seen a ha hs
    unfold dropDupAux
    by_cases hx : x ∈ seen
    · rw [if_pos hx]
      rcases List.mem_cons.mp ha with rfl | ha'
      · exact absurd hx hs
      · exact ih seen a ha' hs
    · rw [if_neg hx]
      rcases List.mem_cons.mp ha with rfl | ha'
      · exact List.mem_cons_self _ _
      · by_cases hax : a = x
        · subst hax
          exact List.mem_cons_self _ _
        · exact List.mem_cons_of_mem _
            (ih (x :: seen) a ha' (by simp [List.mem_cons, hax, hs]))

/-- The helper `dropDupAux` only keeps elements of its input. -/
theorem mem_of_mem_dropDupAux [DecidableEq α] :
    ∀ (l seen : List α) (a : α), a ∈ dropDupAux seen l → a ∈ l := by
  intro l
  induction l with
  | nil =>
    intro seen a ha
    simp [dropDupAux] at ha
  | cons x xs ih =>
    intro seen a ha
    unfold dropDupAux at ha
    by_cases hx : x ∈ seen
    · rw [if_pos hx] at ha
      exact List.mem_cons_of_mem _ (ih seen a ha)
    · rw [if_neg hx] at ha
      rcases List.mem_cons.mp ha with rfl | ha'
      · exact List.mem_cons_self _ _
      · exact List.mem_cons_of_mem _ (ih (x :: seen) a ha')

/-- C9 (confirmed): the emitted mapping has no duplicate
(original, canonical) rows, and looking up any original name of either
dataset returns exactly the live `standardize_name` of that name. -/
theorem C9_mapping_roundtrip :
    (∀ resNames pollNames : List Str,
        (make_name_mapping resNames pollNames).Nodup)
  ∧ (∀ resNames pollNames : List Str, ∀ n, n ∈ resNames ++ pollNames →
        lookupName (make_name_mapping resNames pollNames) n
          = some (standardize_name n)) := by
  constructor
  · intro r p
    exact (dropDupAux_nodup _ []).1
  · intro r p n hn
    have hmem : (n, standardize_name n) ∈ make_name_mapping r p :=
      mem_dropDupAux _ [] _ (List.mem_map.mpr ⟨n, hn, rfl⟩) (by simp)
    unfold lookupName
    cases hf : (make_name_mapping r p).find? (fun kv => kv.1 == n) with
    | none =>
      exfalso
      have := List.find?_eq_none.mp hf _ hmem
      simp at this
    | some kv =>
      have hkvmem : kv ∈ make_name_mapping r p := List.mem_of_find?_eq_some hf
      have hkvl : kv ∈ (r ++ p).map (fun m => (m, standardize_name m)) :=
        mem_of_mem_dropDupAux _ [] kv hkvmem
      rcases List.mem_map.mp hkvl with ⟨m, _, rfl⟩
      have hkv1 : m = n := by
        have := List.find?_some hf
        simpa using this
      subst hkv1
      rfl

/-- C9 witness. -/
theorem C9_witness :
    "Abe".data ∈ (["Abe".data] : List Str) ++ ["Bea".data] ∧
      lookupName (make_name_mapping ["Abe".data] ["Bea".data]) "Abe".data
        = some (standardize_name "Abe".data) :=
  ⟨by decide,
    C9_mapping_roundtrip.2 ["Abe".data] ["Bea".data] "Abe".data (by decide)⟩
